import Mathlib

/-!
Verification of the marker-based conditional code-removal engine
(vite-plugin-remove-code `transform` in src/vite/vite-plugin-remove-code/src/index.ts,
and the interactive editing operations of
src/vscode/code-removal-comments/src/extension.ts).

Text is modelled as `List Char`.  The JavaScript regular expressions used by
the sources are embedded as explicit backtracking parsers over `List Char`,
restricted to the ASCII character classes that can occur here:
`\s` is embedded as ASCII white space, `.` as "not a line terminator",
`\w` as ASCII alphanumeric or underscore.  Marker tokens are matched
literally, reflecting the plugin's (correct) `escapeRegex` composed with
`RegExp` construction.  All functions are structurally recursive, using a
fuel argument where the JavaScript engine advances through the string.
-/

namespace RemoveCode

/-- Convenience: the character list of a string literal. -/
def str (s : String) : List Char := s.data

/-- JS `\s` (restricted to the ASCII white space actually used). -/
def isWs (c : Char) : Bool :=
  c = ' ' || c = '\t' || c = '\n' || c = '\r' || c = '\x0b' || c = '\x0c'

/-- JS line terminators relevant to `.`, `^`, `$` (multiline), ASCII part. -/
def isLineTerm (c : Char) : Bool :=
  c = '\n' || c = '\r'

/-- JS `\w`: ASCII letters, digits and underscore. -/
def isWordChar (c : Char) : Bool :=
  c.isAlphanum || c = '_'

/-- Parse a literal string at the head of the input, returning the rest. -/
def parseLit : List Char → List Char → Option (List Char)
  | [], s => some s
  | _ :: _, [] => none
  | l :: ls, c :: cs => if l = c then parseLit ls cs else none

/-- Backtracking for greedy `\s*` followed by `p`: the white-space run is
consumed as far as possible first, and on failure of the continuation the
engine backs off one character at a time (JS greedy quantifier semantics). -/
def greedyWsBT {β : Type} (p : List Char → Option β) : List Char → Option β
  | [] => p []
  | c :: cs =>
    if isWs c then
      match greedyWsBT p cs with
      | some r => some r
      | none => p (c :: cs)
    else p (c :: cs)

/-- Backtracking for greedy `.*` (no line terminators) followed by `p`. -/
def greedyNoNlBT {β : Type} (p : List Char → Option β) : List Char → Option β
  | [] => p []
  | c :: cs =>
    if isLineTerm c then p (c :: cs)
    else
      match greedyNoNlBT p cs with
      | some r => some r
      | none => p (c :: cs)

/-- Lazy `[\s\S]*?` followed by `p`: try `p` here, else skip one character
and repeat (first match wins). -/
def findFrom {β : Type} (p : List Char → Option β) : Nat → List Char → Option β
  | 0, _ => none
  | _ + 1, [] => p []
  | fuel + 1, c :: cs =>
    match p (c :: cs) with
    | some r => some r
    | none => findFrom p fuel cs

/-- `/\*\s*TOK\s*\*\//`: a block comment containing exactly the token,
returning the rest of the input after the closing `*/`. -/
def blockCommentAt (tok : List Char) (s : List Char) : Option (List Char) :=
  match parseLit (str "/*") s with
  | none => none
  | some s1 =>
    greedyWsBT (fun s2 =>
      match parseLit tok s2 with
      | none => none
      | some s3 => greedyWsBT (fun s4 => parseLit (str "*/") s4) s3) s1

/-- `//\s*TOK`: a line comment marker occurrence, returning the rest after
the token (the regexes place nothing after the token here). -/
def lineCommentAt (tok : List Char) (s : List Char) : Option (List Char) :=
  match parseLit (str "//") s with
  | none => none
  | some s1 => greedyWsBT (fun s2 => parseLit tok s2) s1

/-- Pass 1 match attempt at one position:
`/\*\s*S\s*\*\/[\s\S]*?/\*\s*E\s*\*\//`. -/
def multiLineMatchAt (ms me : List Char) (s : List Char) : Option (List Char) :=
  match blockCommentAt ms s with
  | none => none
  | some mid => findFrom (blockCommentAt me) (mid.length + 1) mid

/-- Pass 2 match attempt at one position: `//\s*S[\s\S]*?//\s*E`. -/
def singleLineBlockMatchAt (ss se : List Char) (s : List Char) :
    Option (List Char) :=
  match lineCommentAt ss s with
  | none => none
  | some mid => findFrom (lineCommentAt se) (mid.length + 1) mid

/-- Greedy `.*$` (multiline): consume to the end of the current line. -/
def restOfLine (s : List Char) : List Char :=
  s.dropWhile (fun c => !isLineTerm c)

/-- Pass 3 match attempt anchored at a line start:
`^.*\/\/\s*M.*$` with the `m` flag. -/
def lineMarkerMatchAt (m : List Char) (s : List Char) : Option (List Char) :=
  greedyNoNlBT (fun s1 =>
    match lineCommentAt m s1 with
    | none => none
    | some s2 => some (restOfLine s2)) s

/-- Global replace-with-empty of a pattern (`String.replace` with the `g`
flag): scan left to right, delete each leftmost match, resume after it.
The `Bool` records whether any match was found (`hasChanges`). -/
def scanReplace (matchAt : List Char → Option (List Char)) :
    Nat → List Char → List Char × Bool
  | 0, s => (s, false)
  | _ + 1, [] => ([], false)
  | fuel + 1, c :: cs =>
    match matchAt (c :: cs) with
    | some rest =>
      let r := scanReplace matchAt fuel rest
      (r.1, true)
    | none =>
      let r := scanReplace matchAt fuel cs
      (c :: r.1, r.2)

/-- Global replace for the `^`-anchored pass: match attempts are made only
at the start of the text and after a line terminator. -/
def scanLines (matchAt : List Char → Option (List Char)) :
    Nat → Bool → List Char → List Char × Bool
  | 0, _, s => (s, false)
  | _ + 1, _, [] => ([], false)
  | fuel + 1, atStart, c :: cs =>
    if atStart then
      match matchAt (c :: cs) with
      | some rest =>
        let r := scanLines matchAt fuel false rest
        (r.1, true)
      | none =>
        let r := scanLines matchAt fuel (isLineTerm c) cs
        (c :: r.1, r.2)
    else
      let r := scanLines matchAt fuel (isLineTerm c) cs
      (c :: r.1, r.2)

/-- The part of a white-space run after its last newline. -/
def afterLastNl : List Char → List Char
  | [] => []
  | c :: cs => if cs.contains '\n' then afterLastNl cs
               else if c = '\n' then cs else c :: cs

/-- Clean-up match attempt at one position: `/\n\s*\n\s*\n/`.  Backtracking
of the two greedy `\s*` makes the match extend through the last newline of
the maximal white-space run; it exists iff that run holds three newlines. -/
def cleanupAt (s : List Char) : Option (List Char) :=
  match s with
  | [] => none
  | c :: cs =>
    if c = '\n' then
      let w := cs.takeWhile isWs
      if 2 ≤ w.count '\n' then some (afterLastNl w ++ cs.dropWhile isWs)
      else none
    else none

/-- `transformedCode.replace(/\n\s*\n\s*\n/g, '\n\n')` (line 169 of the
plugin): each match is replaced by two newlines, scanning resumes after. -/
def cleanupLoop : Nat → List Char → List Char
  | 0, s => s
  | _ + 1, [] => []
  | fuel + 1, c :: cs =>
    match cleanupAt (c :: cs) with
    | some rest => '\n' :: '\n' :: cleanupLoop fuel rest
    | none => c :: cleanupLoop fuel cs

/-- Newlines inside the white-space run at the head of the text: the
quantity deciding whether the clean-up pattern matches at a newline. -/
def nlwsCount (s : List Char) : Nat :=
  (s.takeWhile isWs).count '\n'

/-- Whether the clean-up pattern `/\n\s*\n\s*\n/` still matches anywhere:
equivalently, whether some newline is still followed (through white space)
by two further newlines, i.e. a run of two or more blank lines preceded by
a line break remains. -/
def hasCleanupMatch : List Char → Bool
  | [] => false
  | c :: cs => (cleanupAt (c :: cs)).isSome || hasCleanupMatch cs

/-- The five marker tokens (`RemoveCodeOptions.patterns`). -/
structure Patterns where
  multiLineStart : List Char
  multiLineEnd : List Char
  singleLineStart : List Char
  singleLineEnd : List Char
  singleLine : List Char

/-- `defaultOptions.patterns` of the plugin. -/
def defaultPatterns : Patterns :=
  { multiLineStart := str "BUILD_REMOVE_START"
    multiLineEnd := str "BUILD_REMOVE_END"
    singleLineStart := str "BUILD_REMOVE_START"
    singleLineEnd := str "BUILD_REMOVE_END"
    singleLine := str "BUILD_REMOVE" }

/-- Lines 124–171 of the plugin's `transform`: the three removal passes in
order, then the blank-line clean-up, applied only when something changed.
Returns the rewritten text and `hasChanges`. -/
def stripText (p : Patterns) (code : List Char) : List Char × Bool :=
  let r1 := scanReplace (multiLineMatchAt p.multiLineStart p.multiLineEnd)
    (code.length + 1) code
  let r2 := scanReplace (singleLineBlockMatchAt p.singleLineStart p.singleLineEnd)
    (r1.1.length + 1) r1.1
  let r3 := scanLines (lineMarkerMatchAt p.singleLine)
    (r2.1.length + 1) true r2.1
  let hasChanges := r1.2 || r2.2 || r3.2
  if hasChanges then (cleanupLoop (r3.1.length + 1) r3.1, true)
  else (r3.1, false)

/-- Lines 102–115 of `transform`: the Environment Gate.  `isTarget` models
the configured `isTargetEnvironment` predicate by its result, `nodeEnv`
models `process.env.NODE_ENV`, `vitest` models `!!process.env.VITEST`. -/
def shouldRemove (isTarget : Option Bool) (environments : List String)
    (nodeEnv : Option String) (vitest : Bool) : Bool :=
  match isTarget with
  | some b => b
  | none =>
    if vitest then environments.contains "test"
    else
      match nodeEnv with
      | some e => environments.contains e
      | none => false

/-- JS `id.includes(pat)`: `pat` occurs contiguously inside `id`. -/
def occursIn (pat : List Char) : List Char → Bool
  | [] => pat.isEmpty
  | c :: cs => pat.isPrefixOf (c :: cs) || occursIn pat cs

/-- The fully resolved plugin configuration (`config` in the source). -/
structure ResolvedOptions where
  patterns : Patterns
  environments : List String
  exclude : List (List Char)
  includeExts : List (List Char)
  isTarget : Option Bool

/-- `RemoveCodeOptions`: the user-supplied options, every field optional. -/
structure RemoveCodeOptions where
  patterns : Option Patterns := none
  environments : Option (List String) := none
  exclude : Option (List (List Char)) := none
  includeExts : Option (List (List Char)) := none
  isTarget : Option Bool := none

/-- `{ ...defaultOptions, ...options }` (line 68 of the plugin). -/
def resolveOptions (o : RemoveCodeOptions) : ResolvedOptions :=
  { patterns := o.patterns.getD defaultPatterns
    environments := o.environments.getD ["production"]
    exclude := o.exclude.getD []
    includeExts := o.includeExts.getD [str ".ts", str ".js", str ".tsx", str ".jsx"]
    isTarget := o.isTarget }

/-- The `transform(code, id)` hook (lines 88–174): include/exclude filters,
Environment Gate, strip; `none` is the hook's `null` ("unchanged"). -/
def transform (cfg : ResolvedOptions) (nodeEnv : Option String) (vitest : Bool)
    (id : List Char) (code : List Char) : Option (List Char) :=
  if !(cfg.includeExts.any (fun ext => ext.isSuffixOf id)) then none
  else if cfg.exclude.any (fun pat => occursIn pat id) then none
  else if !(shouldRemove cfg.isTarget cfg.environments nodeEnv vitest) then none
  else
    let r := stripText cfg.patterns code
    if r.2 then some r.1 else none

/-- The text the host build uses: the rewritten code, or the original when
the hook returns `null`. -/
def hostOutput (cfg : ResolvedOptions) (nodeEnv : Option String) (vitest : Bool)
    (id : List Char) (code : List Char) : List Char :=
  (transform cfg nodeEnv vitest id code).getD code

/-! ### The interactive editor (src/vscode/code-removal-comments/src/extension.ts) -/

/-- The character class `[.*+?^${}()|[\]\\]` of both `escapeRegex`s. -/
def regexMetaChars : List Char :=
  ['.', '*', '+', '?', '^', '$', '\x7b', '\x7d', '(', ')', '|', '[', ']', '\\']

/-- `escapeRegex` of the vite plugin (lines 181–183):
`string.replace(/[.*+?^${}()|[\]\\]/g, '\\$&')` — each metacharacter is
replaced by a backslash followed by itself. -/
def escapeRegexVite (s : List Char) : List Char :=
  s.flatMap (fun c => if regexMetaChars.contains c then ['\\', c] else [c])

/-- `escapeRegex` of the vscode extension (lines 142–144):
`string.replace(/[.*+?^${}()|[\]\\]/g, '\\')` — each metacharacter is
replaced by a lone backslash (the `$&` is missing). -/
def escapeRegexVSCode (s : List Char) : List Char :=
  s.flatMap (fun c => if regexMetaChars.contains c then ['\\'] else [c])

/-- JS `String.trim` on a character list (ASCII white space). -/
def trimList (s : List Char) : List Char :=
  ((s.dropWhile isWs).reverse.dropWhile isWs).reverse

/-- `replace(/\n\s*/g, ' ')`: every newline together with the following
white-space run becomes a single space. -/
def collapseNl : Nat → List Char → List Char
  | 0, s => s
  | _ + 1, [] => []
  | fuel + 1, c :: cs =>
    if c = '\n' then ' ' :: collapseNl fuel (cs.dropWhile isWs)
    else c :: collapseNl fuel cs

/-- `/\*\s*(\w+)\s*\*\//` with its capture: a block comment holding one
`\w+` token, returning the token and the rest of the input. -/
def blockTokenAt (s : List Char) : Option (List Char × List Char) :=
  match parseLit (str "/*") s with
  | none => none
  | some s1 =>
    greedyWsBT (fun s2 =>
      let tok := s2.takeWhile isWordChar
      if tok.isEmpty then none
      else
        (greedyWsBT (fun s4 => parseLit (str "*/") s4) (s2.drop tok.length)).map
          (fun r => (tok, r))) s1

/-- Lazy search (`([\s\S]*?)` then `/\*\s*(\w+)\s*\*\//`): the body up to
the first subsequent token comment, that comment's token, and the rest. -/
def findEndBlock : Nat → List Char → Option (List Char × List Char × List Char)
  | 0, _ => none
  | _ + 1, [] => none
  | fuel + 1, c :: cs =>
    match blockTokenAt (c :: cs) with
    | some (tok, r) => some ([], tok, r)
    | none =>
      (findEndBlock fuel cs).map (fun br => (c :: br.1, br.2.1, br.2.2))

/-- Leftmost match of the whole `convertToInline` pattern
`/\/\*\s*(\w+)\s*\*\/([\s\S]*?)\/\*\s*(\w+)\s*\*\//`: the two captured
marker tokens and the captured body. -/
def findBlockMatch : Nat → List Char → Option (List Char × List Char × List Char)
  | 0, _ => none
  | _ + 1, [] => none
  | fuel + 1, c :: cs =>
    match
      (blockTokenAt (c :: cs)).bind (fun tr =>
        (findEndBlock (tr.2.length + 1) tr.2).map
          (fun br => (tr.1, br.1, br.2.1)))
    with
    | some res => some res
    | none => findBlockMatch fuel cs

/-- The one-line replacement `convertToInline` builds (lines 160–166). -/
def inlineOf (useSpacing : Bool) (startTok body endTok : List Char) :
    List Char :=
  let spacing := if useSpacing then [' '] else []
  let content := collapseNl ((trimList body).length + 1) (trimList body)
  str "/*" ++ spacing ++ startTok ++ spacing ++ str "*/ " ++ content ++
    str " /*" ++ spacing ++ endTok ++ spacing ++ str "*/"

/-- `convertToInline` (lines 146–176) as a function of the selected text:
`some` is the single replace edit applied to the selection, `none` is the
"not a removal block" warning with the document left unmodified. -/
def convertToInline (useSpacing : Bool) (sel : List Char) : Option (List Char) :=
  (findBlockMatch (sel.length + 1) sel).map
    (fun m => inlineOf useSpacing m.1 m.2.1 m.2.2)

/-- The formatting options `wrapWithComments` reads. -/
structure WrapConfig where
  useSpacing : Bool
  preserveIndentation : Bool
  addEmptyLines : Bool

/-- `getIndentation` (lines 42–45): the leading white space of a line. -/
def getIndentation (line : List Char) : List Char :=
  line.takeWhile isWs

/-- `wrapWithComments` (lines 47–96) as a function of the selected text and
the text of the selection's first line: `none` is the "No text selected"
warning (no edit), `some` the replacement text for the selection. -/
def wrapWithComments (cfg : WrapConfig) (startMarker endMarker : List Char)
    (useMultiLineStyle : Bool) (inline : Bool)
    (selectedText firstLineText : List Char) : Option (List Char) :=
  if selectedText.isEmpty then none
  else
    let spacing := if cfg.useSpacing then [' '] else []
    let startComment :=
      if useMultiLineStyle then str "/*" ++ spacing ++ startMarker ++ spacing ++ str "*/"
      else str "//" ++ spacing ++ startMarker
    let endComment :=
      if useMultiLineStyle then str "/*" ++ spacing ++ endMarker ++ spacing ++ str "*/"
      else str "//" ++ spacing ++ endMarker
    if inline then
      let cleanText := trimList (collapseNl (selectedText.length + 1) selectedText)
      some (startComment ++ [' '] ++ cleanText ++ [' '] ++ endComment)
    else
      let indent := if cfg.preserveIndentation then getIndentation firstLineText else []
      if cfg.addEmptyLines then
        some (indent ++ startComment ++ ['\n'] ++ selectedText ++ ['\n'] ++
          indent ++ endComment)
      else
        some (indent ++ startComment ++ ['\n'] ++ selectedText ++ ['\n'] ++
          indent ++ endComment)

/-! ### Basic lemmas: a pass that found nothing returns its input verbatim -/

theorem scanReplace_unchanged (m : List Char → Option (List Char)) :
    ∀ (f : Nat) (s : List Char),
      (scanReplace m f s).2 = false → (scanReplace m f s).1 = s
  | 0, _, _ => rfl
  | _ + 1, [], _ => rfl
  | f + 1, c :: cs, h => by
    unfold scanReplace at h ⊢
    cases hm : m (c :: cs) with
    | some rest => exact absurd h (by simp [hm])
    | none =>
      simp only [hm] at h ⊢
      exact congrArg (c :: ·) (scanReplace_unchanged m f cs h)

theorem scanLines_unchanged (m : List Char → Option (List Char)) :
    ∀ (f : Nat) (b : Bool) (s : List Char),
      (scanLines m f b s).2 = false → (scanLines m f b s).1 = s
  | 0, _, _, _ => rfl
  | _ + 1, _, [], _ => rfl
  | f + 1, b, c :: cs, h => by
    unfold scanLines at h ⊢
    cases b with
    | true =>
      simp only [if_pos] at h ⊢
      cases hm : m (c :: cs) with
      | some rest => exact absurd h (by simp [hm])
      | none =>
        simp only [hm] at h ⊢
        exact congrArg (c :: ·) (scanLines_unchanged m f (isLineTerm c) cs h)
    | false =>
      simp only [Bool.false_eq_true, if_false] at h ⊢
      exact congrArg (c :: ·) (scanLines_unchanged m f (isLineTerm c) cs h)

/-- When `hasChanges` is false the stripper hands back the input
bit-for-bit (in particular the clean-up pass was not applied). -/
theorem stripText_unchanged (p : Patterns) (code : List Char)
    (h : (stripText p code).2 = false) : (stripText p code).1 = code := by
  simp only [stripText] at h ⊢
  split at h
  · simp at h
  · next hc =>
    rw [if_neg hc]
    simp only [Bool.or_eq_true, not_or, Bool.not_eq_true] at hc
    obtain ⟨⟨h1, h2⟩, h3⟩ := hc
    rw [scanLines_unchanged _ _ _ _ h3, scanReplace_unchanged _ _ _ h2,
      scanReplace_unchanged _ _ _ h1]

/-! ### The match attempts only move forward: each returns a suffix -/

theorem parseLit_suffix :
    ∀ (l s r : List Char), parseLit l s = some r → r <:+ s
  | [], s, r, h => by
    simp only [parseLit, Option.some.injEq] at h
    exact h ▸ List.suffix_refl s
  | _ :: _, [], _, h => by simp [parseLit] at h
  | l :: ls, c :: cs, r, h => by
    simp only [parseLit] at h
    split at h
    · exact (parseLit_suffix ls cs r h).trans (List.suffix_cons c cs)
    · exact absurd h (by simp)

theorem greedyWsBT_suffix (p : List Char → Option (List Char))
    (hp : ∀ s r, p s = some r → r <:+ s) :
    ∀ (s r : List Char), greedyWsBT p s = some r → r <:+ s
  | [], r, h => hp [] r h
  | c :: cs, r, h => by
    simp only [greedyWsBT] at h
    split at h
    · cases hg : greedyWsBT p cs with
      | some r2 =>
        rw [hg] at h
        cases h
        exact (greedyWsBT_suffix p hp cs r hg).trans (List.suffix_cons c cs)
      | none => rw [hg] at h; exact hp _ r h
    · exact hp _ r h

theorem greedyNoNlBT_suffix (p : List Char → Option (List Char))
    (hp : ∀ s r, p s = some r → r <:+ s) :
    ∀ (s r : List Char), greedyNoNlBT p s = some r → r <:+ s
  | [], r, h => hp [] r h
  | c :: cs, r, h => by
    simp only [greedyNoNlBT] at h
    split at h
    · exact hp _ r h
    · cases hg : greedyNoNlBT p cs with
      | some r2 =>
        rw [hg] at h
        cases h
        exact (greedyNoNlBT_suffix p hp cs r hg).trans (List.suffix_cons c cs)
      | none => rw [hg] at h; exact hp _ r h

theorem findFrom_suffix (p : List Char → Option (List Char))
    (hp : ∀ s r, p s = some r → r <:+ s) :
    ∀ (f : Nat) (s r : List Char), findFrom p f s = some r → r <:+ s
  | 0, _, _, h => by simp [findFrom] at h
  | _ + 1, [], r, h => hp [] r h
  | f + 1, c :: cs, r, h => by
    simp only [findFrom] at h
    cases hm : p (c :: cs) with
    | some r2 => rw [hm] at h; cases h; exact hp _ r hm
    | none =>
      rw [hm] at h
      exact (findFrom_suffix p hp f cs r h).trans (List.suffix_cons c cs)

theorem blockCommentAt_suffix (tok : List Char) :
    ∀ (s r : List Char), blockCommentAt tok s = some r → r <:+ s := by
  intro s r h
  simp only [blockCommentAt] at h
  cases h1 : parseLit (str "/*") s with
  | none => rw [h1] at h; exact absurd h (by simp)
  | some s1 =>
    rw [h1] at h
    have hinner : ∀ s2 r2, (fun s2 =>
        match parseLit tok s2 with
        | none => none
        | some s3 => greedyWsBT (fun s4 => parseLit (str "*/") s4) s3) s2 =
          some r2 → r2 <:+ s2 := by
      intro s2 r2 h2
      simp only at h2
      cases h3 : parseLit tok s2 with
      | none => rw [h3] at h2; exact absurd h2 (by simp)
      | some s3 =>
        rw [h3] at h2
        exact ((greedyWsBT_suffix _ (fun s4 r4 => parseLit_suffix _ s4 r4)
          s3 r2 h2).trans (parseLit_suffix _ s2 s3 h3))
    exact (greedyWsBT_suffix _ hinner s1 r h).trans (parseLit_suffix _ s s1 h1)

theorem lineCommentAt_suffix (tok : List Char) :
    ∀ (s r : List Char), lineCommentAt tok s = some r → r <:+ s := by
  intro s r h
  simp only [lineCommentAt] at h
  cases h1 : parseLit (str "//") s with
  | none => rw [h1] at h; exact absurd h (by simp)
  | some s1 =>
    rw [h1] at h
    exact ((greedyWsBT_suffix _ (fun s2 r2 => parseLit_suffix tok s2 r2)
      s1 r h).trans (parseLit_suffix _ s s1 h1))

theorem multiLineMatchAt_suffix (ms me : List Char) :
    ∀ (s r : List Char), multiLineMatchAt ms me s = some r → r <:+ s := by
  intro s r h
  simp only [multiLineMatchAt] at h
  cases h1 : blockCommentAt ms s with
  | none => rw [h1] at h; exact absurd h (by simp)
  | some mid =>
    rw [h1] at h
    exact ((findFrom_suffix _ (blockCommentAt_suffix me) _ mid r h).trans
      (blockCommentAt_suffix ms s mid h1))

theorem singleLineBlockMatchAt_suffix (ss se : List Char) :
    ∀ (s r : List Char), singleLineBlockMatchAt ss se s = some r → r <:+ s := by
  intro s r h
  simp only [singleLineBlockMatchAt] at h
  cases h1 : lineCommentAt ss s with
  | none => rw [h1] at h; exact absurd h (by simp)
  | some mid =>
    rw [h1] at h
    exact ((findFrom_suffix _ (lineCommentAt_suffix se) _ mid r h).trans
      (lineCommentAt_suffix ss s mid h1))

theorem lineMarkerMatchAt_suffix (m : List Char) :
    ∀ (s r : List Char), lineMarkerMatchAt m s = some r → r <:+ s := by
  intro s r h
  simp only [lineMarkerMatchAt] at h
  have hinner : ∀ s1 r1, (fun s1 =>
      match lineCommentAt m s1 with
      | none => none
      | some s2 => some (restOfLine s2)) s1 = some r1 → r1 <:+ s1 := by
    intro s1 r1 h1
    simp only at h1
    cases h2 : lineCommentAt m s1 with
    | none => rw [h2] at h1; exact absurd h1 (by simp)
    | some s2 =>
      rw [h2] at h1
      cases h1
      exact (List.dropWhile_suffix _).trans (lineCommentAt_suffix m s1 s2 h2)
  exact greedyNoNlBT_suffix _ hinner s r h

/-! ### The rewriting loops only delete: the output is a sublist -/

theorem scanReplace_sublist (m : List Char → Option (List Char))
    (hm : ∀ s r, m s = some r → r <:+ s) :
    ∀ (f : Nat) (s : List Char), List.Sublist (scanReplace m f s).1 s
  | 0, s => List.Sublist.refl s
  | _ + 1, [] => List.Sublist.refl []
  | f + 1, c :: cs => by
    unfold scanReplace
    cases hx : m (c :: cs) with
    | some rest =>
      simp only
      exact (scanReplace_sublist m hm f rest).trans (hm _ rest hx).sublist
    | none =>
      simp only
      exact (scanReplace_sublist m hm f cs).cons₂ c

theorem scanLines_sublist (m : List Char → Option (List Char))
    (hm : ∀ s r, m s = some r → r <:+ s) :
    ∀ (f : Nat) (b : Bool) (s : List Char), List.Sublist (scanLines m f b s).1 s
  | 0, _, s => List.Sublist.refl s
  | _ + 1, _, [] => List.Sublist.refl []
  | f + 1, b, c :: cs => by
    unfold scanLines
    cases b with
    | true =>
      simp only [if_pos]
      cases hx : m (c :: cs) with
      | some rest =>
        simp only
        exact (scanLines_sublist m hm f false rest).trans (hm _ rest hx).sublist
      | none =>
        simp only
        exact (scanLines_sublist m hm f (isLineTerm c) cs).cons₂ c
    | false =>
      simp only [Bool.false_eq_true, if_false]
      exact (scanLines_sublist m hm f (isLineTerm c) cs).cons₂ c

theorem nl_afterLastNl_suffix :
    ∀ (w : List Char), w.contains '\n' = true → '\n' :: afterLastNl w <:+ w
  | [], h => by simp at h
  | c :: cs, h => by
    unfold afterLastNl
    cases hc : cs.contains '\n' with
    | true =>
      simp only [if_pos]
      exact (nl_afterLastNl_suffix cs hc).trans (List.suffix_cons c cs)
    | false =>
      have hcnl : c = '\n' := by
        simp only [List.contains_cons, hc, Bool.or_false] at h
        exact (eq_of_beq h).symm
      simp only [hc, Bool.false_eq_true, if_false, hcnl, if_pos]
      exact List.suffix_refl _

theorem cleanupLoop_sublist :
    ∀ (f : Nat) (s : List Char), List.Sublist (cleanupLoop f s) s
  | 0, s => List.Sublist.refl s
  | _ + 1, [] => List.Sublist.refl []
  | f + 1, c :: cs => by
    unfold cleanupLoop
    cases hx : cleanupAt (c :: cs) with
    | some rest =>
      simp only
      simp only [cleanupAt] at hx
      split at hx
      · next hcnl =>
        split at hx
        · next hcount =>
          cases hx
          have hw : (cs.takeWhile isWs).contains '\n' = true := by
            have hmem : '\n' ∈ cs.takeWhile isWs :=
              List.count_pos_iff.mp (lt_of_lt_of_le (by norm_num) hcount)
            exact List.elem_iff.mpr hmem
          have hsuf : '\n' :: afterLastNl (cs.takeWhile isWs) <:+ cs.takeWhile isWs :=
            nl_afterLastNl_suffix _ hw
          have hrest : List.Sublist ('\n' :: (afterLastNl (cs.takeWhile isWs) ++ cs.dropWhile isWs)) cs := by
            have := List.Sublist.append hsuf.sublist
              (List.Sublist.refl (cs.dropWhile isWs))
            simpa [List.takeWhile_append_dropWhile] using this
          subst hcnl
          exact List.Sublist.cons₂ '\n'
            (((cleanupLoop_sublist f _).cons₂ '\n').trans hrest)
        · exact absurd hx (by simp)
      · exact absurd hx (by simp)
    | none =>
      simp only
      exact (cleanupLoop_sublist f cs).cons₂ c

/-- The whole stripper only deletes characters: its output is a sublist of
the input (kept text appears unchanged and in its original order, up to the
characters deleted by the matched spans and the blank-line clean-up). -/
theorem stripText_sublist (p : Patterns) (code : List Char) :
    List.Sublist (stripText p code).1 code := by
  simp only [stripText]
  split
  · exact (((cleanupLoop_sublist _ _).trans
      (scanLines_sublist _ (lineMarkerMatchAt_suffix p.singleLine) _ _ _)).trans
      (scanReplace_sublist _ (singleLineBlockMatchAt_suffix _ _) _ _)).trans
      (scanReplace_sublist _ (multiLineMatchAt_suffix _ _) _ _)
  · exact ((scanLines_sublist _ (lineMarkerMatchAt_suffix p.singleLine) _ _ _).trans
      (scanReplace_sublist _ (singleLineBlockMatchAt_suffix _ _) _ _)).trans
      (scanReplace_sublist _ (multiLineMatchAt_suffix _ _) _ _)

/-! ### The clean-up pass leaves no further clean-up match -/

theorem afterLastNl_length_le : ∀ (w : List Char), (afterLastNl w).length ≤ w.length
  | [] => le_refl _
  | c :: cs => by
    unfold afterLastNl
    split
    · exact (afterLastNl_length_le cs).trans (by simp)
    · split
      · simp
      · exact le_refl _

theorem afterLastNl_no_nl :
    ∀ (w : List Char), w.contains '\n' = true → '\n' ∉ afterLastNl w
  | [], h => by simp at h
  | c :: cs, h => by
    unfold afterLastNl
    cases hc : cs.contains '\n' with
    | true => exact afterLastNl_no_nl cs hc
    | false =>
      have hcnl : c = '\n' := by
        simp only [List.contains_cons, hc, Bool.or_false] at h
        exact (eq_of_beq h).symm
      simp only [hc, Bool.false_eq_true, if_false, hcnl, if_pos]
      simpa using hc

theorem takeWhile_append_all {p : Char → Bool} :
    ∀ {l1 : List Char} (l2 : List Char), (∀ x ∈ l1, p x = true) →
      (l1 ++ l2).takeWhile p = l1 ++ l2.takeWhile p
  | [], l2, _ => rfl
  | c :: cs, l2, h => by
    have hc : p c = true := h c (List.mem_cons_self c cs)
    simp only [List.cons_append, List.takeWhile_cons, hc, if_pos]
    exact congrArg (c :: ·) (takeWhile_append_all l2 (fun x hx => h x (List.mem_cons_of_mem c hx)))

theorem takeWhile_dropWhile_nil {p : Char → Bool} :
    ∀ (l : List Char), (l.dropWhile p).takeWhile p = []
  | [] => rfl
  | c :: cs => by
    simp only [List.dropWhile_cons]
    split
    · exact takeWhile_dropWhile_nil cs
    · next hc => simp [List.takeWhile_cons, hc]

/-- The clean-up pattern needs three newlines: at the head of a text whose
white-space run past the first character holds at most one newline, there is
no match. -/
theorem cleanupAt_none_of_nlws {c : Char} {cs : List Char}
    (h : nlwsCount cs ≤ 1) : cleanupAt (c :: cs) = none := by
  have hlt : ¬ (2 ≤ List.count '\n' (cs.takeWhile isWs)) := by
    simp only [nlwsCount] at h
    omega
  simp [cleanupAt, hlt]

theorem nlwsCount_nl_cons (x : List Char) :
    nlwsCount ('\n' :: x) = nlwsCount x + 1 := by
  have : isWs '\n' = true := by decide
  simp [nlwsCount, List.takeWhile_cons, this, List.count_cons]

theorem nlwsCount_cons_not_ws {c : Char} (x : List Char) (h : isWs c = false) :
    nlwsCount (c :: x) = 0 := by
  simp [nlwsCount, List.takeWhile_cons, h]

theorem nlwsCount_cons_ws_not_nl {c : Char} (x : List Char)
    (hws : isWs c = true) (hnl : c ≠ '\n') :
    nlwsCount (c :: x) = nlwsCount x := by
  simp [nlwsCount, List.takeWhile_cons, hws, List.count_cons, hnl]

/-- The clean-up loop never raises the number of newlines in the leading
white-space run (when that run held at most one). -/
theorem nlwsCount_cleanupLoop_le :
    ∀ (f : Nat) (s : List Char), nlwsCount s ≤ 1 →
      nlwsCount (cleanupLoop f s) ≤ nlwsCount s
  | 0, _, _ => le_refl _
  | _ + 1, [], _ => le_refl _
  | f + 1, c :: cs, h => by
    unfold cleanupLoop
    cases hx : cleanupAt (c :: cs) with
    | some rest =>
      exfalso
      simp only [cleanupAt] at hx
      split at hx
      · next hcnl =>
        split at hx
        · next hcount =>
          rw [hcnl, nlwsCount_nl_cons] at h
          simp only [nlwsCount] at h
          omega
        · exact absurd hx (by simp)
      · exact absurd hx (by simp)
    | none =>
      simp only
      by_cases hws : isWs c
      · by_cases hnl : c = '\n'
        · subst hnl
          rw [nlwsCount_nl_cons] at h ⊢
          rw [nlwsCount_nl_cons]
          have hcs : nlwsCount cs = 0 := Nat.le_zero.mp (Nat.le_of_succ_le_succ h)
          have hle := nlwsCount_cleanupLoop_le f cs (by omega)
          omega
        · rw [nlwsCount_cons_ws_not_nl cs hws hnl] at h
          rw [nlwsCount_cons_ws_not_nl _ hws hnl, nlwsCount_cons_ws_not_nl _ hws hnl]
          exact nlwsCount_cleanupLoop_le f cs h
      · have hws' : isWs c = false := by simpa using hws
        rw [nlwsCount_cons_not_ws _ hws', nlwsCount_cons_not_ws _ hws']

/-- After one clean-up pass no clean-up match remains anywhere: no newline
is still followed, through white space, by two further newlines. -/
theorem cleanupLoop_no_match :
    ∀ (f : Nat) (s : List Char), s.length < f →
      hasCleanupMatch (cleanupLoop f s) = false
  | 0, _, h => absurd h (Nat.not_lt_zero _)
  | _ + 1, [], _ => rfl
  | f + 1, c :: cs, h => by
    unfold cleanupLoop
    cases hx : cleanupAt (c :: cs) with
    | some rest =>
      simp only [cleanupAt] at hx
      split at hx
      · next hcnl =>
        split at hx
        · next hcount =>
          have hrest : rest = afterLastNl (cs.takeWhile isWs) ++ cs.dropWhile isWs := by
            simpa using hx.symm
          have hw : (cs.takeWhile isWs).contains '\n' = true := by
            have hmem : '\n' ∈ cs.takeWhile isWs :=
              List.count_pos_iff.mp (by omega)
            simpa using hmem
          have hA_ws : ∀ x ∈ afterLastNl (cs.takeWhile isWs), isWs x = true := by
            intro x hxmem
            exact List.mem_takeWhile_imp
              ((nl_afterLastNl_suffix _ hw).sublist.subset (List.mem_cons_of_mem _ hxmem))
          have htw : rest.takeWhile isWs = afterLastNl (cs.takeWhile isWs) := by
            rw [hrest, takeWhile_append_all _ hA_ws, takeWhile_dropWhile_nil,
              List.append_nil]
          have hnlws0 : nlwsCount rest = 0 := by
            rw [nlwsCount, htw]
            exact List.count_eq_zero.mpr (afterLastNl_no_nl _ hw)
          have hlenA := afterLastNl_length_le (cs.takeWhile isWs)
          have hlen_split : (cs.takeWhile isWs).length + (cs.dropWhile isWs).length = cs.length := by
            conv_rhs => rw [← @List.takeWhile_append_dropWhile _ isWs cs]
            rw [List.length_append]
          have hlen : rest.length < f := by
            have hcl : cs.length < f := by simpa using Nat.lt_of_succ_lt_succ h
            rw [hrest]
            simp only [List.length_append]
            omega
          have IH := cleanupLoop_no_match f rest hlen
          have hout0 : nlwsCount (cleanupLoop f rest) = 0 := by
            have := nlwsCount_cleanupLoop_le f rest (by omega)
            omega
          simp only [hasCleanupMatch]
          rw [cleanupAt_none_of_nlws (by rw [nlwsCount_nl_cons]; omega),
            cleanupAt_none_of_nlws (by omega), IH]
          rfl
        · exact absurd hx (by simp)
      · exact absurd hx (by simp)
    | none =>
      have hlen : cs.length < f := by simpa using Nat.lt_of_succ_lt_succ h
      have IH := cleanupLoop_no_match f cs hlen
      simp only [hasCleanupMatch]
      by_cases hc : c = '\n'
      · subst hc
        have hle : nlwsCount cs ≤ 1 := by
          by_contra hgt
          have h2 : 2 ≤ List.count '\n' (cs.takeWhile isWs) := by
            simp only [nlwsCount] at hgt
            omega
          simp [cleanupAt, h2] at hx
        have hout := nlwsCount_cleanupLoop_le f cs hle
        rw [cleanupAt_none_of_nlws (by omega), IH]
        rfl
      · have hnone : cleanupAt (c :: cleanupLoop f cs) = none := by
          simp [cleanupAt, hc]
        rw [hnone, IH]
        rfl

/-- Strip-level corollary: whenever the stripper reports a change (and so
runs the clean-up), its output has no remaining clean-up match. -/
theorem stripText_cleanup_settled (p : Patterns) (code : List Char)
    (h : (stripText p code).2 = true) :
    hasCleanupMatch (stripText p code).1 = false := by
  simp only [stripText] at h ⊢
  split at h
  · next hcond =>
    rw [if_pos hcond]
    exact cleanupLoop_no_match _ _ (Nat.lt_succ_self _)
  · simp at h

/-! ### `convertToInline`: captured tokens are word characters, the
collapsed body has no newline, so the replacement is a single line -/

theorem greedyWsBT_prop {β : Type} (p : List Char → Option β) (Q : β → Prop)
    (hp : ∀ s b, p s = some b → Q b) :
    ∀ (s : List Char) (b : β), greedyWsBT p s = some b → Q b
  | [], b, h => hp [] b h
  | c :: cs, b, h => by
    simp only [greedyWsBT] at h
    split at h
    · cases hg : greedyWsBT p cs with
      | some b2 => rw [hg] at h; cases h; exact greedyWsBT_prop p Q hp cs b hg
      | none => rw [hg] at h; exact hp _ b h
    · exact hp _ b h

theorem blockTokenAt_word (s : List Char) (tok r : List Char)
    (h : blockTokenAt s = some (tok, r)) : ∀ c ∈ tok, isWordChar c = true := by
  simp only [blockTokenAt] at h
  cases h1 : parseLit (str "/*") s with
  | none => rw [h1] at h; exact absurd h (by simp)
  | some s1 =>
    rw [h1] at h
    refine greedyWsBT_prop _ (fun b => ∀ c ∈ b.1, isWordChar c = true) ?_ s1 (tok, r) h
    intro s2 b h2
    simp only at h2
    split at h2
    · exact absurd h2 (by simp)
    · rcases Option.map_eq_some'.mp h2 with ⟨r4, _, hb⟩
      subst hb
      intro c hc
      exact List.mem_takeWhile_imp hc

theorem findEndBlock_word :
    ∀ (f : Nat) (s body tok r : List Char),
      findEndBlock f s = some (body, tok, r) → ∀ c ∈ tok, isWordChar c = true
  | 0, s, body, tok, r, h => by simp [findEndBlock] at h
  | _ + 1, [], body, tok, r, h => by simp [findEndBlock] at h
  | f + 1, c :: cs, body, tok, r, h => by
    simp only [findEndBlock] at h
    cases hb : blockTokenAt (c :: cs) with
    | some tr =>
      rw [hb] at h
      cases h
      exact blockTokenAt_word (c :: cs) _ _ (by rw [hb])
    | none =>
      rw [hb] at h
      rcases Option.map_eq_some'.mp h with ⟨br, hbr, heq⟩
      cases heq
      exact findEndBlock_word f cs br.1 br.2.1 br.2.2 (by rw [hbr])

theorem findBlockMatch_word :
    ∀ (f : Nat) (s t1 body t2 : List Char),
      findBlockMatch f s = some (t1, body, t2) →
      (∀ c ∈ t1, isWordChar c = true) ∧ (∀ c ∈ t2, isWordChar c = true)
  | 0, s, t1, body, t2, h => by simp [findBlockMatch] at h
  | _ + 1, [], t1, body, t2, h => by simp [findBlockMatch] at h
  | f + 1, c :: cs, t1, body, t2, h => by
    simp only [findBlockMatch] at h
    cases hb : (blockTokenAt (c :: cs)).bind (fun tr =>
        (findEndBlock (tr.2.length + 1) tr.2).map
          (fun br => (tr.1, br.1, br.2.1))) with
    | some res =>
      rw [hb] at h
      cases h
      rcases Option.bind_eq_some.mp hb with ⟨tr, htr, hmap⟩
      rcases Option.map_eq_some'.mp hmap with ⟨br, hbr, hres⟩
      cases hres
      exact ⟨blockTokenAt_word (c :: cs) _ _ (by rw [htr]),
        findEndBlock_word _ _ _ _ _ (by rw [hbr])⟩
    | none =>
      rw [hb] at h
      exact findBlockMatch_word f cs t1 body t2 h

theorem collapseNl_no_nl :
    ∀ (f : Nat) (s : List Char), s.length < f → '\n' ∉ collapseNl f s
  | 0, _, h => absurd h (Nat.not_lt_zero _)
  | _ + 1, [], _ => List.not_mem_nil _
  | f + 1, c :: cs, h => by
    unfold collapseNl
    split
    · intro hmem
      rcases List.mem_cons.mp hmem with h1 | h1
      · exact absurd h1 (by decide)
      · have hlen : (cs.dropWhile isWs).length < f := by
          have hsufd : cs.dropWhile isWs <:+ cs := List.dropWhile_suffix isWs
          have := hsufd.length_le
          have hcl : cs.length < f := by simpa using Nat.lt_of_succ_lt_succ h
          omega
        exact collapseNl_no_nl f _ hlen h1
    · next hc =>
      intro hmem
      rcases List.mem_cons.mp hmem with h1 | h1
      · exact hc h1.symm
      · have hcl : cs.length < f := by simpa using Nat.lt_of_succ_lt_succ h
        exact collapseNl_no_nl f cs hcl h1

theorem inlineOf_no_nl (u : Bool) (t1 body t2 : List Char)
    (h1 : ∀ c ∈ t1, isWordChar c = true) (h2 : ∀ c ∈ t2, isWordChar c = true) :
    '\n' ∉ inlineOf u t1 body t2 := by
  have hsp : '\n' ∉ (if u = true then [' '] else ([] : List Char)) := by
    cases u <;> simp
  have ht1 : '\n' ∉ t1 := fun hm => absurd (h1 _ hm) (by decide)
  have ht2 : '\n' ∉ t2 := fun hm => absurd (h2 _ hm) (by decide)
  have hct : '\n' ∉ collapseNl ((trimList body).length + 1) (trimList body) :=
    collapseNl_no_nl _ _ (Nat.lt_succ_self _)
  simp only [inlineOf, List.mem_append, not_or, and_assoc]
  exact ⟨by decide, hsp, ht1, hsp, by decide, hct, by decide, hsp, ht2, hsp, by decide⟩

/-! ### Claims -/

/-- C1 (counterexample): strip is **not** idempotent as claimed.  On this
input the first run deletes the inner block pair, and the deletion splices
the surrounding text into a fresh `/* BUILD_REMOVE_START */ … /* BUILD_REMOVE_END */`
pair, so a second run removes more text. -/
theorem strip_not_idempotent_cex :
    (stripText defaultPatterns
      (stripText defaultPatterns
        (str "/* /* BUILD_REMOVE_START */x/* BUILD_REMOVE_END */BUILD_REMOVE_START */mid/* BUILD_REMOVE_END */")).1).1 ≠
    (stripText defaultPatterns
      (str "/* /* BUILD_REMOVE_START */x/* BUILD_REMOVE_END */BUILD_REMOVE_START */mid/* BUILD_REMOVE_END */")).1 := by
  decide

/-- C1 (amended): running strip a second time on its own output yields no
further change whenever the second run finds no region to remove (its
`hasChanges` is false); removal can splice remaining text into a new marker
pair, in which case a second run removes more. -/
theorem strip_idempotent_when_settled (p : Patterns) (t : List Char)
    (h : (stripText p (stripText p t).1).2 = false) :
    (stripText p (stripText p t).1).1 = (stripText p t).1 :=
  stripText_unchanged p _ h

theorem strip_idempotent_when_settled_wit :
    (stripText defaultPatterns
      (stripText defaultPatterns
        (str "keep1\n/* BUILD_REMOVE_START */\nx=1;\n/* BUILD_REMOVE_END */\nkeep2")).1).2 = false ∧
    (stripText defaultPatterns
      (stripText defaultPatterns
        (str "keep1\n/* BUILD_REMOVE_START */\nx=1;\n/* BUILD_REMOVE_END */\nkeep2")).1).1 =
    (stripText defaultPatterns
      (str "keep1\n/* BUILD_REMOVE_START */\nx=1;\n/* BUILD_REMOVE_END */\nkeep2")).1 :=
  ⟨by decide, strip_idempotent_when_settled defaultPatterns _ (by decide)⟩

/-- C2: identity when inactive — if the Environment Gate is false the
`transform` hook returns `null` ("unchanged") for every file id and input
text, so the text the host uses equals the input exactly. -/
theorem transform_identity_when_inactive (cfg : ResolvedOptions)
    (nodeEnv : Option String) (vitest : Bool) (id code : List Char)
    (h : shouldRemove cfg.isTarget cfg.environments nodeEnv vitest = false) :
    transform cfg nodeEnv vitest id code = none ∧
      hostOutput cfg nodeEnv vitest id code = code := by
  have ht : transform cfg nodeEnv vitest id code = none := by
    unfold transform
    rw [h]
    simp
  exact ⟨ht, by unfold hostOutput; rw [ht]; rfl⟩

theorem transform_identity_when_inactive_wit :
    shouldRemove (resolveOptions {}).isTarget (resolveOptions {}).environments
      (some "development") false = false ∧
    transform (resolveOptions {}) (some "development") false (str "app.ts")
      (str "keep1\n/* BUILD_REMOVE_START */\nx=1;\n/* BUILD_REMOVE_END */\nkeep2") = none ∧
    hostOutput (resolveOptions {}) (some "development") false (str "app.ts")
      (str "keep1\n/* BUILD_REMOVE_START */\nx=1;\n/* BUILD_REMOVE_END */\nkeep2") =
      str "keep1\n/* BUILD_REMOVE_START */\nx=1;\n/* BUILD_REMOVE_END */\nkeep2" :=
  ⟨by decide,
   (transform_identity_when_inactive _ _ _ _ _ (by decide)).1,
   (transform_identity_when_inactive _ _ _ _ _ (by decide)).2⟩

/-- C3: Environment Gate resolution order — a configured custom predicate
alone decides the gate; otherwise under the ambient test-mode signal the
gate is "test" ∈ environments; otherwise it is NODE_ENV ∈ environments
(false when NODE_ENV is unset); and with no environments supplied the
default list is exactly ["production"]. -/
theorem gate_resolution_order :
    (∀ (b : Bool) (envs : List String) (ne : Option String) (vt : Bool),
        shouldRemove (some b) envs ne vt = b) ∧
    (∀ (envs : List String) (ne : Option String),
        shouldRemove none envs ne true = envs.contains "test") ∧
    (∀ (envs : List String) (e : String),
        shouldRemove none envs (some e) false = envs.contains e) ∧
    (∀ (envs : List String), shouldRemove none envs none false = false) ∧
    (resolveOptions {}).environments = ["production"] :=
  ⟨fun _ _ _ _ => rfl, fun _ _ => rfl, fun _ _ => rfl, fun _ => rfl, rfl⟩

/-- C4 (counterexample): kept text outside every matched span is **not**
left unchanged.  Here the only matched Region is the first line (the
line-marker match at position 0 spans exactly it; the other two passes find
nothing), yet the text strictly outside that span, `"\nfoo\n\n\n\nbar"`,
does not occur in the output: the blank-line clean-up deleted two of its
newlines. -/
theorem strip_noninterference_cex :
    lineMarkerMatchAt defaultPatterns.singleLine
      (str "x(); // BUILD_REMOVE\nfoo\n\n\n\nbar") = some (str "\nfoo\n\n\n\nbar") ∧
    (scanReplace (multiLineMatchAt defaultPatterns.multiLineStart defaultPatterns.multiLineEnd)
      ((str "x(); // BUILD_REMOVE\nfoo\n\n\n\nbar").length + 1)
      (str "x(); // BUILD_REMOVE\nfoo\n\n\n\nbar")).2 = false ∧
    (scanReplace (singleLineBlockMatchAt defaultPatterns.singleLineStart defaultPatterns.singleLineEnd)
      ((str "x(); // BUILD_REMOVE\nfoo\n\n\n\nbar").length + 1)
      (str "x(); // BUILD_REMOVE\nfoo\n\n\n\nbar")).2 = false ∧
    (stripText defaultPatterns (str "x(); // BUILD_REMOVE\nfoo\n\n\n\nbar")).1 =
      str "\nfoo\n\nbar" ∧
    occursIn (str "\nfoo\n\n\n\nbar")
      (stripText defaultPatterns (str "x(); // BUILD_REMOVE\nfoo\n\n\n\nbar")).1 = false :=
  ⟨by decide, by decide, by decide, by decide, by decide⟩

/-- C4 (amended): the stripper only deletes characters — its output is a
sublist of the input, so all kept text appears unchanged and in its
original order; text strictly outside every matched span is preserved
except for white-space characters deleted by the blank-line clean-up. -/
theorem strip_only_deletes (p : Patterns) (code : List Char) :
    List.Sublist (stripText p code).1 code :=
  stripText_sublist p code

/-- C5 (counterexample): one clean-up pass does not collapse every run of
two or more blank lines to exactly one.  Removing the marked line leaves
the text `"\n\n\n\ny"`; the clean-up match swallows all four newlines and
replaces them by two, so the result `"\n\ny"` still begins with a run of
two blank lines. -/
theorem cleanup_two_blank_lines_remain_cex :
    (stripText defaultPatterns (str "x(); // BUILD_REMOVE\n\n\n\ny")).2 = true ∧
    (stripText defaultPatterns (str "x(); // BUILD_REMOVE\n\n\n\ny")).1 = str "\n\ny" ∧
    ((stripText defaultPatterns (str "x(); // BUILD_REMOVE\n\n\n\ny")).1).splitOn '\n' =
      [[], [], str "y"] :=
  ⟨by decide, by decide, by decide⟩

/-- C5 (amended): whenever the stripper reports a change it runs exactly
one clean-up pass, after which no newline is still followed, through white
space, by two further newlines — every run of two or more blank lines that
is preceded by a line break has been collapsed to one blank line; only a
run of blank lines at the very start of the text can retain two. -/
theorem cleanup_settles_interior_blank_runs (p : Patterns) (code : List Char)
    (h : (stripText p code).2 = true) :
    hasCleanupMatch (stripText p code).1 = false :=
  stripText_cleanup_settled p code h

theorem cleanup_settles_interior_blank_runs_wit :
    (stripText defaultPatterns (str "x(); // BUILD_REMOVE\n\n\n\ny")).2 = true ∧
    hasCleanupMatch (stripText defaultPatterns (str "x(); // BUILD_REMOVE\n\n\n\ny")).1 = false :=
  ⟨by decide, cleanup_settles_interior_blank_runs defaultPatterns _ (by decide)⟩

/-- C6 (counterexample): Scenario B — the output is not `"b();"`.  The
line-marker regex `^.*\/\/\s*M.*$` matches the line's characters but not
its line break, and the clean-up needs three newlines, so the output is
`"\nb();"`. -/
theorem lineMarker_scenarioB_cex :
    transform (resolveOptions {}) (some "production") false (str "a.ts")
      (str "a(); // BUILD_REMOVE\nb();") = some (str "\nb();") ∧
    str "\nb();" ≠ str "b();" :=
  ⟨by decide, by decide⟩

/-- C6 (amended): for the Scenario B input the marked line's characters are
all removed but its line break is kept, so the output is `"\nb();"` — one
leading empty line, then `"b();"` as the only non-blank content. -/
theorem lineMarker_scenarioB_amended :
    transform (resolveOptions {}) (some "production") false (str "a.ts")
      (str "a(); // BUILD_REMOVE\nb();") = some (str "\nb();") ∧
    (str "\nb();").splitOn '\n' = [[], str "b();"] :=
  ⟨by decide, by decide⟩

/-- C7: `convertToInline` — when the selection structurally matches
start-comment, body, end-comment, the selection is replaced by the single
line `inlineOf`, which contains the same two captured marker tokens and the
trimmed body with newline-led white space collapsed to single spaces, and
holds no newline; when the pattern does not match (e.g. no end marker) the
operation reports failure and performs no edit. -/
theorem convertToInline_spec :
    (∀ (u : Bool) (sel t1 body t2 : List Char),
        findBlockMatch (sel.length + 1) sel = some (t1, body, t2) →
        convertToInline u sel = some (inlineOf u t1 body t2) ∧
        List.IsInfix t1 (inlineOf u t1 body t2) ∧
        List.IsInfix t2 (inlineOf u t1 body t2) ∧
        '\n' ∉ inlineOf u t1 body t2) ∧
    (∀ (u : Bool) (sel : List Char),
        findBlockMatch (sel.length + 1) sel = none →
        convertToInline u sel = none) := by
  constructor
  · intro u sel t1 body t2 h
    obtain ⟨h1, h2⟩ := findBlockMatch_word _ _ _ _ _ h
    refine ⟨by simp [convertToInline, h], ?_, ?_, inlineOf_no_nl u t1 body t2 h1 h2⟩
    · exact ⟨str "/*" ++ (if u = true then [' '] else []),
        (if u = true then [' '] else []) ++ str "*/ " ++
          collapseNl ((trimList body).length + 1) (trimList body) ++ str " /*" ++
          (if u = true then [' '] else []) ++ t2 ++
          (if u = true then [' '] else []) ++ str "*/",
        by simp [inlineOf, List.append_assoc]⟩
    · exact ⟨str "/*" ++ (if u = true then [' '] else []) ++ t1 ++
          (if u = true then [' '] else []) ++ str "*/ " ++
          collapseNl ((trimList body).length + 1) (trimList body) ++ str " /*" ++
          (if u = true then [' '] else []),
        (if u = true then [' '] else []) ++ str "*/",
        by simp [inlineOf, List.append_assoc]⟩
  · intro u sel h
    simp [convertToInline, h]

theorem convertToInline_spec_wit :
    convertToInline true (str "/* BUILD_REMOVE_START */\nfoo();\n/* BUILD_REMOVE_END */") =
      some (str "/* BUILD_REMOVE_START */ foo(); /* BUILD_REMOVE_END */") ∧
    convertToInline true (str "/* BUILD_REMOVE_START */\nfoo();") = none :=
  ⟨((convertToInline_spec.1 true
      (str "/* BUILD_REMOVE_START */\nfoo();\n/* BUILD_REMOVE_END */")
      (str "BUILD_REMOVE_START") (str "\nfoo();\n") (str "BUILD_REMOVE_END")
      (by decide)).1).trans (by decide),
   convertToInline_spec.2 true (str "/* BUILD_REMOVE_START */\nfoo();") (by decide)⟩

/-- C8: the vscode `escapeRegex` is buggy — its replacement string is a
lone backslash, so every regex metacharacter of a marker token is deleted
instead of being escaped; the vite plugin's `escapeRegex` (replacement
`\$&`) keeps the token text.  For the token `"A.B"` the vscode version
yields `"A\B"`, not the correct `"A\.B"`, so the derived pattern no longer
matches the literal token. -/
theorem escapeRegex_vscode_drops_metachars :
    escapeRegexVSCode (str "A.B") = str "A\\B" ∧
    escapeRegexVite (str "A.B") = str "A\\.B" ∧
    escapeRegexVSCode (str "A.B") ≠ escapeRegexVite (str "A.B") :=
  ⟨by decide, by decide, by decide⟩

/-- C9: `hasChanges` is true iff some pass matched; whenever it is false
the stripper returns its input bit-for-bit (so the clean-up is never
applied to an untouched file), and — filters passing and the gate true —
the hook returns `null` exactly when `hasChanges` is false. -/
theorem changed_flag_and_untouched_identity (cfg : ResolvedOptions)
    (nodeEnv : Option String) (vitest : Bool) (id code : List Char) :
    ((stripText cfg.patterns code).2 = false → (stripText cfg.patterns code).1 = code) ∧
    (cfg.includeExts.any (fun ext => ext.isSuffixOf id) = true →
      cfg.exclude.any (fun pat => occursIn pat id) = false →
      shouldRemove cfg.isTarget cfg.environments nodeEnv vitest = true →
      (transform cfg nodeEnv vitest id code = none ↔
        (stripText cfg.patterns code).2 = false)) := by
  refine ⟨stripText_unchanged cfg.patterns code, ?_⟩
  intro h1 h2 h3
  unfold transform
  rw [h1, h2, h3]
  cases hs : (stripText cfg.patterns code).2 <;> simp [hs]

theorem changed_flag_and_untouched_identity_wit :
    (stripText (resolveOptions {}).patterns (str "a\n\n\n\nb")).2 = false ∧
    (stripText (resolveOptions {}).patterns (str "a\n\n\n\nb")).1 = str "a\n\n\n\nb" ∧
    transform (resolveOptions {}) (some "production") false (str "a.ts")
      (str "a\n\n\n\nb") = none :=
  ⟨by decide,
   (changed_flag_and_untouched_identity (resolveOptions {}) (some "production")
     false (str "a.ts") (str "a\n\n\n\nb")).1 (by decide),
   ((changed_flag_and_untouched_identity (resolveOptions {}) (some "production")
     false (str "a.ts") (str "a\n\n\n\nb")).2 (by decide) (by decide)
       (by decide)).mpr (by decide)⟩

/-- C10: `addEmptyLines` has no effect on the block-mode wrap — the two
branches of the source's `if (config.addEmptyLines)` build the identical
text, so for every selection, marker pair and configuration the results
with the flag true and false coincide. -/
theorem wrap_addEmptyLines_no_effect :
    ∀ (u p : Bool) (sm em : List Char) (ms : Bool) (sel fl : List Char),
      wrapWithComments ⟨u, p, true⟩ sm em ms false sel fl =
        wrapWithComments ⟨u, p, false⟩ sm em ms false sel fl :=
  fun _ _ _ _ _ _ _ => rfl

end RemoveCode
